import Mathlib

/-!
Shallow embedding of the shell2node capture pipeline
(src/src/shell2node.ts and src/src/utils/rcContent.ts).

JavaScript strings are modelled as `List Char`.  Pure computations of the
source (log parsing, filtering, replay-script and metadata generation,
shell detection) become Lean functions; the stateful exit handler becomes
a function from its observable inputs (marker existence, log-read result)
to an explicit result value.
-/

namespace ShellToNode

/-- One character list standing for a JavaScript string. -/
abbrev Str := List Char

/-- JS `String.prototype.startsWith`: does `s` begin with `pat`? -/
def startsWith : Str → Str → Bool
  | _, [] => true
  | [], _ :: _ => false
  | c :: cs, p :: ps => c = p && startsWith cs ps

/-- JS `String.prototype.includes`: does `s` contain `pat` as a contiguous substring? -/
def containsSub (s pat : Str) : Bool :=
  startsWith s pat ||
    match s with
    | [] => false
    | _ :: cs => containsSub cs pat

/-- ASCII lowercasing of one string, modelling `String.prototype.toLowerCase`
on the ASCII range (shell base names are ASCII). -/
def toLowerStr (s : Str) : Str := s.map Char.toLower

/-- The whitespace set of JS `String.prototype.trim` (WhiteSpace ∪ LineTerminator). -/
def isJsWhitespace (c : Char) : Bool :=
  c = ' ' || c = '\t' || c = '\n' || c = '\r' ||
  c.toNat = 0x0b || c.toNat = 0x0c || c.toNat = 0xa0 || c.toNat = 0x1680 ||
  (0x2000 ≤ c.toNat && c.toNat ≤ 0x200a) ||
  c.toNat = 0x2028 || c.toNat = 0x2029 || c.toNat = 0x202f ||
  c.toNat = 0x205f || c.toNat = 0x3000 || c.toNat = 0xfeff

/-- JS `String.prototype.trim`: strips leading and trailing whitespace. -/
def jsTrim (s : Str) : Str :=
  ((s.dropWhile isJsWhitespace).reverse.dropWhile isJsWhitespace).reverse

/-- `split(/\r?\n/)`: each `"\r\n"` or `"\n"` occurrence separates lines;
a lone `'\r'` is not a separator. -/
def splitLines : Str → List Str
  | [] => [[]]
  | '\r' :: '\n' :: rest => [] :: splitLines rest
  | '\n' :: rest => [] :: splitLines rest
  | c :: rest =>
    match splitLines rest with
    | [] => [[c]]
    | h :: r => (c :: h) :: r

/-- Index of the first `' '` in the line, modelling `line.indexOf(' ')`
(with `none` for JS `-1`). -/
def indexOfSpace : Str → Option Nat
  | [] => none
  | c :: cs => if c = ' ' then some 0 else (indexOfSpace cs).map (· + 1)

/-- A parsed log entry `\x7b ts, cmd \x7d`; `ts = none` models JS `null`. -/
structure LogEntry where
  ts : Option Str
  cmd : Str
deriving DecidableEq, Repr

/-- The per-line parser of the exit handler: split at the first space into
timestamp and command; a line with no space gets a `null` timestamp. -/
def parseLine (line : Str) : LogEntry :=
  match indexOfSpace line with
  | none => ⟨none, line⟩
  | some idx => ⟨some (line.take idx), line.drop (idx + 1)⟩

/-- `raw.trim().split(/\r?\n/).filter(Boolean).map(parseLine)`: the parsed
entry list of one raw log text. -/
def parseLog (raw : Str) : List LogEntry :=
  (((splitLines (jsTrim raw)).filter (fun l => !l.isEmpty)).map parseLine)

/-- The control-command name used by the filter. -/
def s2n : Str := "shell2node".toList

/-- The filter predicate `(e) => e.cmd && !e.cmd.startsWith('shell2node')`
(JS truthiness: the empty string is falsy). -/
def keepEntry (e : LogEntry) : Bool :=
  !e.cmd.isEmpty && !startsWith e.cmd s2n

/-- The entries retained after control-command filtering. -/
def filteredEntries (raw : Str) : List LogEntry :=
  (parseLog raw).filter keepEntry

/-- Lowercase hex digit character for a value below 16. -/
def hexLowerDigit (n : Nat) : Char :=
  if n < 10 then Char.ofNat (48 + n) else Char.ofNat (87 + n)

/-- The two lowercase hex digits of a byte value. -/
def hexPair (n : Nat) : Str := [hexLowerDigit (n / 16), hexLowerDigit (n % 16)]

/-- Value of one hex digit character (JSON parsing accepts both cases). -/
def hexVal (c : Char) : Option Nat :=
  if 48 ≤ c.toNat ∧ c.toNat ≤ 57 then some (c.toNat - 48)
  else if 97 ≤ c.toNat ∧ c.toNat ≤ 102 then some (c.toNat - 87)
  else if 65 ≤ c.toNat ∧ c.toNat ≤ 70 then some (c.toNat - 55)
  else none

/-- The escape `JSON.stringify` applies to one character inside a string
literal: two-character escapes for quote, backslash and the named control
characters, `\u00xy` for the remaining control characters, the character
itself otherwise. -/
def jsonEscapeChar (c : Char) : Str :=
  if c = '"' then ['\\', '"']
  else if c = '\\' then ['\\', '\\']
  else if c = '\x08' then ['\\', 'b']
  else if c = '\x0c' then ['\\', 'f']
  else if c = '\n' then ['\\', 'n']
  else if c = '\r' then ['\\', 'r']
  else if c = '\t' then ['\\', 't']
  else if c.toNat < 0x20 then
    '\\' :: 'u' :: '0' :: '0' :: hexPair c.toNat
  else [c]

/-- `JSON.stringify(s)` for a string `s`: a double-quoted literal with every
character escaped per `jsonEscapeChar`. -/
def jsonQuote (s : Str) : Str :=
  '"' :: (s.flatMap jsonEscapeChar ++ ['"'])

/-- Decoder for the body of a JSON string literal (everything after the
opening quote, up to and including the closing quote); `none` on any input
that is not one complete literal body. -/
def jsonUnquoteBody : Str → Option Str
  | [] => none
  | c :: t =>
    if c = '"' then (if t.isEmpty then some [] else none)
    else if c = '\\' then
      match t with
      | [] => none
      | e :: t2 =>
        if e = '"' then (jsonUnquoteBody t2).map (fun l => '"' :: l)
        else if e = '\\' then (jsonUnquoteBody t2).map (fun l => '\\' :: l)
        else if e = '/' then (jsonUnquoteBody t2).map (fun l => '/' :: l)
        else if e = 'b' then (jsonUnquoteBody t2).map (fun l => '\x08' :: l)
        else if e = 'f' then (jsonUnquoteBody t2).map (fun l => '\x0c' :: l)
        else if e = 'n' then (jsonUnquoteBody t2).map (fun l => '\n' :: l)
        else if e = 'r' then (jsonUnquoteBody t2).map (fun l => '\r' :: l)
        else if e = 't' then (jsonUnquoteBody t2).map (fun l => '\t' :: l)
        else if e = 'u' then
          match t2 with
          | h1 :: h2 :: h3 :: h4 :: t3 =>
            match hexVal h1, hexVal h2, hexVal h3, hexVal h4 with
            | some a, some b, some c2, some d =>
              (jsonUnquoteBody t3).map
                (fun l => Char.ofNat ((((a * 16 + b) * 16 + c2) * 16 + d)) :: l)
            | _, _, _, _ => none
          | _ => none
        else none
    else if 0x20 ≤ c.toNat then (jsonUnquoteBody t).map (fun l => c :: l)
    else none

/-- Decoder for one complete JSON string literal. -/
def jsonUnquote : Str → Option Str
  | [] => none
  | c :: t => if c = '"' then jsonUnquoteBody t else none

/-- Character of one decimal digit. -/
def digitChar (d : Nat) : Char := Char.ofNat (48 + d)

/-- Decimal rendering of a number, for the template `${entries.length}`. -/
def natStr (n : Nat) : Str :=
  if _h : n < 10 then [digitChar n]
  else natStr (n / 10) ++ [digitChar (n % 10)]
termination_by n
decreasing_by exact Nat.div_lt_self (by omega) (by omega)

/-- One replay invocation line of the generated script:
`  run(JSON.stringify(e.cmd));`. -/
def runLine (cmd : Str) : Str :=
  "  run(".toList ++ jsonQuote cmd ++ ");".toList

/-- Recognizer for replay invocation lines (lines starting with `  run(`). -/
def isRunLine (l : Str) : Bool := startsWith l "  run(".toList

/-- First header line of the generated script. -/
def scriptHeadLine : Str := "// Generated by shell2node (MLP)".toList

/-- Header line giving the number of captured commands. -/
def scriptCountLine (n : Nat) : Str := "// Captured commands: ".toList ++ natStr n

/-- Header line giving the generation time. -/
def scriptGenAtLine (now : Str) : Str := "// Generated at: ".toList ++ now

/-- The fixed lines between the header and the `run` calls: the import, the
`run` helper (spawn `sh -c` with inherited stdio, exit on error or
non-zero status), and the IIFE opener. -/
def scriptFixedMid : List Str :=
  [ [],
    "import \x7b spawnSync \x7d from \x27child_process\x27 ".toList,
    [],
    "function run(cmd) \x7b".toList,
    "  console.log(\x27> \x27 + cmd);".toList,
    "  const r = spawnSync(\x27sh\x27, [\x27-c\x27, cmd], \x7b stdio: \x27inherit\x27 \x7d);".toList,
    "  if (r.error) \x7b".toList,
    "    console.error(\x27Failed to run command:\x27, r.error);".toList,
    "    process.exit(r.status || 1);".toList,
    "  \x7d".toList,
    "  if (r.status && r.status !== 0) \x7b".toList,
    "    console.error(\x27Command exited with code\x27, r.status);".toList,
    "    process.exit(r.status);".toList,
    "  \x7d".toList,
    "\x7d".toList,
    [],
    "(async () => \x7b".toList ]

/-- The closing IIFE line. -/
def scriptLastLine : Str := "\x7d)();".toList

/-- The line list of the generated replay script, exactly as pushed onto
`lines` in the exit handler: a fixed header and `run` helper, one `run`
call per retained entry, and the closing IIFE line.  `now` is the
`new Date().toISOString()` value interpolated into the header. -/
def replayScriptLines (now : Str) (entries : List LogEntry) : List Str :=
  scriptHeadLine :: scriptCountLine entries.length :: scriptGenAtLine now ::
    scriptFixedMid
  ++ entries.map (fun e => runLine e.cmd)
  ++ [scriptLastLine]

/-- `lines.join('\n')`. -/
def joinLines : List Str → Str
  | [] => []
  | [l] => l
  | l :: r => l ++ '\n' :: joinLines r

/-- The full text of the generated replay script file. -/
def replayScriptText (now : Str) (entries : List LogEntry) : Str :=
  joinLines (replayScriptLines now entries)

/-- JSON rendering of one entry timestamp (`null` or a quoted string). -/
def tsJson : Option Str → Str
  | none => "null".toList
  | some t => jsonQuote t

/-- Lines of one entry object inside `JSON.stringify(meta, null, 2)`
(closing brace added by the caller, which knows about the comma). -/
def metaEntryLines (e : LogEntry) : List Str :=
  [ "    \x7b".toList,
    "      \"ts\": ".toList ++ (tsJson e.ts ++ [',']),
    "      \"cmd\": ".toList ++ jsonQuote e.cmd ]

/-- Lines of the entry objects of the `entries` array, comma-separated
as `JSON.stringify` renders array elements. -/
def entryBlocks : List LogEntry → List Str
  | [] => []
  | [e] => metaEntryLines e ++ ["    \x7d".toList]
  | e :: rest => metaEntryLines e ++ ["    \x7d,".toList] ++ entryBlocks rest

/-- Lines of the `"entries"` property of the metadata document. -/
def entriesArrayLines : List LogEntry → List Str
  | [] => ["  \"entries\": []".toList]
  | es => "  \"entries\": [".toList :: (entryBlocks es ++ ["  ]".toList])

/-- The `"originalCapturedAt"` property line of the metadata document. -/
def metaCapturedAtLine (now : Str) : Str :=
  "  \"originalCapturedAt\": ".toList ++ (jsonQuote now ++ [','])

/-- The `"tmpWorkspace"` property line of the metadata document. -/
def metaWorkspaceLine (root : Str) : Str :=
  "  \"tmpWorkspace\": ".toList ++ (jsonQuote root ++ [','])

/-- The line list of `JSON.stringify(meta, null, 2)` for
`meta = \x7b originalCapturedAt, tmpWorkspace, entries \x7d`. -/
def metaLines (now root : Str) (entries : List LogEntry) : List Str :=
  "\x7b".toList :: metaCapturedAtLine now :: metaWorkspaceLine root ::
    entriesArrayLines entries
  ++ [ "\x7d".toList ]

/-- The full text of the metadata document. -/
def metaText (now root : Str) (entries : List LogEntry) : Str :=
  joinLines (metaLines now root entries)

/-- The prefix of the `"cmd"` property line inside an entry object. -/
def cmdKeyPre : Str := "      \"cmd\": ".toList

/-- Recognizer for `"cmd"` property lines of the metadata document. -/
def isCmdLine (l : Str) : Bool := startsWith l cmdKeyPre

/-- Result of the `child.on('exit')` handler.  `logReadThrow` is the
uncaught exception from `fs.readFileSync(logFile)` on the saved path
(the handler has no try/catch); `artifact` carries the texts of the two
files written. -/
inductive FinalizeResult where
  | notSaved
  | logReadThrow
  | savedNoEntries
  | artifact (meta : Str) (script : Str)
deriving DecidableEq, Repr

/-- How the process ends: an explicit `process.exit(code)`, or abnormal
termination from an uncaught exception (Node exits non-zero, code 1). -/
inductive Termination where
  | exit (code : Nat)
  | uncaught
deriving DecidableEq, Repr

/-- The exit handler: check the save marker first; only on the saved path
read the log, parse, filter, and generate the two artifact files when at
least one entry remains.  `logRead` is the outcome of
`fs.readFileSync(logFile, 'utf8')`; `nowMeta`/`nowScript` are the
`new Date().toISOString()` values taken while writing each file. -/
def finalize (saved : Bool) (logRead : Except Unit Str)
    (nowMeta nowScript root : Str) : FinalizeResult :=
  if !saved then .notSaved
  else
    match logRead with
    | .error _ => .logReadThrow
    | .ok raw =>
      let entries := filteredEntries raw
      if entries.isEmpty then .savedNoEntries
      else .artifact (metaText nowMeta root entries) (replayScriptText nowScript entries)

/-- Does the handler write the replay artifact (script plus metadata)? -/
def writesArtifact : FinalizeResult → Bool
  | .artifact _ _ => true
  | _ => false

/-- Number of output files the handler writes. -/
def artifactFileCount : FinalizeResult → Nat
  | .artifact _ _ => 2
  | _ => 0

/-- Termination of the exit handler: every completed path calls
`process.exit(0)`; the unprotected log read ends in an uncaught
exception. -/
def finalizeTermination : FinalizeResult → Termination
  | .logReadThrow => .uncaught
  | _ => .exit 0

/-- `argv.length === 0 || argv[0] !== 'capture'` rejects the invocation. -/
def argvAccepted (argv : List Str) : Bool :=
  match argv with
  | [] => false
  | a :: _ => a = "capture".toList

/-- Modelled from the spec: `usageAndExit` is imported from `./utils` but its
definition is not under src/; per the spec a bad or missing subcommand
prints usage and exits non-zero. -/
def usageExitCode : Nat := 1

/-- Whole-run termination: usage check, then the spawn error handler
(`process.exit(2)`), then the exit handler. -/
def program (argv : List Str) (spawnFailed saved : Bool)
    (logRead : Except Unit Str) (nowMeta nowScript root : Str) : Termination :=
  if !argvAccepted argv then .exit usageExitCode
  else if spawnFailed then .exit 2
  else finalizeTermination (finalize saved logRead nowMeta nowScript root)

/-- The spawn decision of `runSession`: executable, argument list, whether
`ZDOTDIR` is pointed at the workspace, and whether the unsupported-shell
warning was printed. -/
structure SpawnPlan where
  exe : Str
  args : List Str
  setsZdotdir : Bool
  warned : Bool
deriving DecidableEq, Repr

/-- Node `path.basename` (posix): trailing slashes ignored, then the part
after the last slash. -/
def basename (p : Str) : Str :=
  let t := (p.reverse.dropWhile (· = '/')).reverse
  (t.reverse.takeWhile (· ≠ '/')).reverse

/-- `process.env.SHELL || '/bin/bash'` (the empty string is falsy). -/
def resolveShell (envShell : Option Str) : Str :=
  match envShell with
  | none => "/bin/bash".toList
  | some s => if s.isEmpty then "/bin/bash".toList else s

/-- The spawn strategy choice of the source: zsh by `ZDOTDIR`, bash by
`--rcfile`; otherwise warn, and attach the rc file only when the full
shell path contains `bash`, else spawn plain `-i`. -/
def chooseSpawn (userShell bashRcPath : Str) : SpawnPlan :=
  let shellBase := toLowerStr (basename userShell)
  if containsSub shellBase "zsh".toList then
    ⟨userShell, ["-i".toList], true, false⟩
  else if containsSub shellBase "bash".toList then
    ⟨userShell, ["--rcfile".toList, bashRcPath, "-i".toList], false, false⟩
  else if containsSub userShell "bash".toList then
    ⟨userShell, ["--rcfile".toList, bashRcPath, "-i".toList], false, true⟩
  else
    ⟨userShell, ["-i".toList], false, true⟩

/-- Mode option of `fs.writeFileSync(logFile, '', 'utf8')`: none given. -/
def logFileWriteMode : Option Nat := none

/-- Mode option of the bash rc write: `mode: 0o600`. -/
def bashRcWriteMode : Option Nat := some 0o600

/-- Mode option of the zsh rc write: `mode: 0o600`. -/
def zshRcWriteMode : Option Nat := some 0o600

/-- Effective creation mode of a `writeFileSync`: the explicit mode, or the
Node default `0o666`, masked by the process umask. -/
def effectiveMode (m : Option Nat) (umask : Nat) : Nat :=
  (m.getD 0o666) &&& (0o777 ^^^ (umask &&& 0o777))

/-- Outcome of one `spawnSync('sh', ['-c', cmd], ...)` inside the generated
script: `err st` models `r.error` set with `r.status = st` (JS `null` as
`none`); `ok st` models a spawn with exit status `st` (`none` when killed
by a signal, JS `null`). -/
inductive StepExec where
  | err (status : Option Int)
  | ok (status : Option Int)
deriving DecidableEq, Repr

/-- The `run` helper of the generated script: `some code` when it calls
`process.exit(code)`, `none` when it returns and the replay continues.
`r.status || 1` maps a falsy status (null or 0) to 1;
`r.status && r.status !== 0` exits only on a truthy non-zero status. -/
def runStep : StepExec → Option Int
  | .err st =>
    some (match st with
      | none => 1
      | some s => if s = 0 then 1 else s)
  | .ok st =>
    match st with
    | none => none
    | some s => if s = 0 then none else some s

/-- Observable state of one replay execution: the commands actually run, in
order, and the exit code of the first failing step (`none`: ran to the
end). -/
structure ReplayState where
  executed : List Str
  exitCode : Option Int
deriving DecidableEq, Repr

/-- Sequential execution of the generated script body: the `i`-th `run`
call executes the `i`-th command; the first step on which `run` exits
terminates the whole replay. -/
def replayRun (exec : Nat → StepExec) : Nat → List Str → ReplayState
  | _, [] => ⟨[], none⟩
  | i, c :: rest =>
    match runStep (exec i) with
    | some code => ⟨[c], some code⟩
    | none =>
      let s := replayRun exec (i + 1) rest
      ⟨c :: s.executed, s.exitCode⟩

theorem startsWith_append_self (p x : Str) : startsWith (p ++ x) p = true := by
  induction p with
  | nil => cases x <;> rfl
  | cons c p ih => simp [startsWith, ih]

theorem startsWith_append_false (a x p : Str)
    (h : startsWith a (p.take a.length) = false) :
    startsWith (a ++ x) p = false := by
  induction a generalizing p with
  | nil => simp [startsWith] at h
  | cons c a ih =>
    cases p with
    | nil => simp [startsWith] at h
    | cons q p =>
      simp only [List.length_cons, List.take_succ_cons, startsWith,
        List.cons_append] at h ⊢
      rcases Bool.and_eq_false_iff.mp h with h1 | h1
      · simp [h1]
      · simp [ih _ h1, Bool.and_false]

theorem indexOfSpace_eq_none (l : Str) : indexOfSpace l = none ↔ ' ' ∉ l := by
  induction l with
  | nil => simp [indexOfSpace]
  | cons c t ih =>
    by_cases hc : c = ' '
    · subst hc; simp [indexOfSpace]
    · simp [indexOfSpace, hc, Option.map_eq_none', ih, Ne.symm hc]

theorem indexOfSpace_append_space (ts rest : Str) (h : ' ' ∉ ts) :
    indexOfSpace (ts ++ ' ' :: rest) = some ts.length := by
  induction ts with
  | nil => simp [indexOfSpace]
  | cons c t ih =>
    have hc : ¬(c = ' ') := fun hcc => h (hcc ▸ List.mem_cons_self c t)
    have ht : ' ' ∉ t := fun hm => h (List.mem_cons_of_mem c hm)
    simp [indexOfSpace, hc, ih ht]

theorem indexOfSpace_some_decomp (l : Str) (i : Nat)
    (h : indexOfSpace l = some i) :
    l.take i ++ ' ' :: l.drop (i + 1) = l ∧ ' ' ∉ l.take i := by
  induction l generalizing i with
  | nil => simp [indexOfSpace] at h
  | cons c t ih =>
    by_cases hc : c = ' '
    · subst hc
      simp [indexOfSpace] at h
      subst h
      simp
    · simp only [indexOfSpace, hc, if_false, Option.map_eq_some'] at h
      obtain ⟨j, hj, hij⟩ := h
      subst hij
      obtain ⟨hdec, hmem⟩ := ih j hj
      refine ⟨?_, ?_⟩
      · simpa [List.take_succ_cons, List.drop_succ_cons] using congrArg (c :: ·) hdec
      · intro hm
        rcases List.mem_cons.mp hm with h1 | h1
        · exact hc h1.symm
        · exact hmem h1

theorem parseLine_no_space (line : Str) (h : ' ' ∉ line) :
    parseLine line = ⟨none, line⟩ := by
  simp [parseLine, (indexOfSpace_eq_none line).mpr h]

theorem parseLine_append_space (ts rest : Str) (h : ' ' ∉ ts) :
    parseLine (ts ++ ' ' :: rest) = ⟨some ts, rest⟩ := by
  simp [parseLine, indexOfSpace_append_space ts rest h]

theorem hexVal_hexLowerDigit : ∀ m, m < 16 → hexVal (hexLowerDigit m) = some m := by
  decide

theorem hexLowerDigit_ge : ∀ m, m < 16 → 0x20 ≤ (hexLowerDigit m).toNat := by
  decide

theorem map_cons_congr (a b : Char) (h : a = b) (o : Option Str) :
    o.map (fun l => a :: l) = o.map (fun l => b :: l) := by rw [h]

theorem ofNat_eq_of_toNat (n : Nat) (c : Char) (h : n = c.toNat) :
    Char.ofNat n = c := by
  rw [h, Char.ofNat_toNat]

theorem jsonUnquoteBody_escape (c : Char) (l : Str) :
    jsonUnquoteBody (jsonEscapeChar c ++ l) =
      (jsonUnquoteBody l).map (fun r => c :: r) := by
  unfold jsonEscapeChar
  split_ifs with h1 h2 h3 h4 h5 h6 h7 h8
  · subst h1; rw [jsonUnquoteBody.eq_def]; simp +decide
  · subst h2; rw [jsonUnquoteBody.eq_def]; simp +decide
  · subst h3; rw [jsonUnquoteBody.eq_def]; simp +decide
  · subst h4; rw [jsonUnquoteBody.eq_def]; simp +decide
  · subst h5; rw [jsonUnquoteBody.eq_def]; simp +decide
  · subst h6; rw [jsonUnquoteBody.eq_def]; simp +decide
  · subst h7; rw [jsonUnquoteBody.eq_def]; simp +decide
  · have hdiv : c.toNat / 16 < 16 := by omega
    have hmod : c.toNat % 16 < 16 := by omega
    have h0 : hexVal '0' = some 0 := by decide
    rw [jsonUnquoteBody.eq_def]
    simp +decide [hexPair, hexVal_hexLowerDigit _ hdiv, hexVal_hexLowerDigit _ hmod, h0]
    exact map_cons_congr _ _ (ofNat_eq_of_toNat _ _ (by omega)) _
  · have hge : 0x20 ≤ c.toNat := by omega
    rw [List.singleton_append, jsonUnquoteBody.eq_def]
    simp [h1, h2, hge]

theorem jsonUnquoteBody_closes (s : Str) :
    jsonUnquoteBody (s.flatMap jsonEscapeChar ++ ['"']) = some s := by
  induction s with
  | nil => rfl
  | cons c t ih =>
    rw [List.flatMap_cons, List.append_assoc, jsonUnquoteBody_escape, ih]
    rfl

theorem jsonQuote_roundtrip (s : Str) : jsonUnquote (jsonQuote s) = some s := by
  show jsonUnquoteBody (s.flatMap jsonEscapeChar ++ ['"']) = some s
  exact jsonUnquoteBody_closes s

theorem jsonQuote_injective (a b : Str) (h : jsonQuote a = jsonQuote b) : a = b := by
  have := jsonQuote_roundtrip a
  rw [h, jsonQuote_roundtrip b] at this
  exact (Option.some_inj.mp this).symm

theorem mem_jsonEscapeChar_ge (c d : Char) (h : d ∈ jsonEscapeChar c) :
    0x20 ≤ d.toNat := by
  unfold jsonEscapeChar at h
  split_ifs at h with h1 h2 h3 h4 h5 h6 h7 h8
  · simp only [List.mem_cons, List.not_mem_nil, or_false] at h
    rcases h with h | h <;> subst h <;> decide
  · simp only [List.mem_cons, List.not_mem_nil, or_false] at h
    rcases h with h | h <;> subst h <;> decide
  · simp only [List.mem_cons, List.not_mem_nil, or_false] at h
    rcases h with h | h <;> subst h <;> decide
  · simp only [List.mem_cons, List.not_mem_nil, or_false] at h
    rcases h with h | h <;> subst h <;> decide
  · simp only [List.mem_cons, List.not_mem_nil, or_false] at h
    rcases h with h | h <;> subst h <;> decide
  · simp only [List.mem_cons, List.not_mem_nil, or_false] at h
    rcases h with h | h <;> subst h <;> decide
  · simp only [List.mem_cons, List.not_mem_nil, or_false] at h
    rcases h with h | h <;> subst h <;> decide
  · have hdiv : c.toNat / 16 < 16 := by omega
    have hmod : c.toNat % 16 < 16 := by omega
    simp only [hexPair, List.mem_cons, List.not_mem_nil, or_false] at h
    rcases h with h | h | h | h | h | h
    · subst h; decide
    · subst h; decide
    · subst h; decide
    · subst h; decide
    · subst h; exact hexLowerDigit_ge _ hdiv
    · subst h; exact hexLowerDigit_ge _ hmod
  · simp only [List.mem_cons, List.not_mem_nil, or_false] at h
    subst h; omega

theorem newline_not_mem_jsonQuote (s : Str) : '\n' ∉ jsonQuote s := by
  intro h
  unfold jsonQuote at h
  rcases List.mem_cons.mp h with h | h
  · exact absurd h (by decide)
  rcases List.mem_append.mp h with h | h
  · obtain ⟨c, _, hmem⟩ := List.mem_flatMap.mp h
    have := mem_jsonEscapeChar_ge c '\n' hmem
    exact absurd this (by decide)
  · simp only [List.mem_singleton] at h
    exact absurd h (by decide)

theorem isRunLine_runLine (cmd : Str) : isRunLine (runLine cmd) = true := by
  unfold isRunLine runLine
  rw [List.append_assoc]
  exact startsWith_append_self _ _

theorem filter_script_lines (now : Str) (entries : List LogEntry) :
    (replayScriptLines now entries).filter isRunLine =
      entries.map (fun e => runLine e.cmd) := by
  have h1 : isRunLine scriptHeadLine = false := by decide
  have h2 : isRunLine (scriptCountLine entries.length) = false := by
    unfold isRunLine scriptCountLine
    exact startsWith_append_false _ _ _ (by decide)
  have h3 : isRunLine (scriptGenAtLine now) = false := by
    unfold isRunLine scriptGenAtLine
    exact startsWith_append_false _ _ _ (by decide)
  have h4 : scriptFixedMid.filter isRunLine = [] := by decide
  have h5 : [scriptLastLine].filter isRunLine = [] := by decide
  have h6 : (entries.map (fun e => runLine e.cmd)).filter isRunLine =
      entries.map (fun e => runLine e.cmd) := by
    refine List.filter_eq_self.mpr ?_
    intro a ha
    obtain ⟨e, _, rfl⟩ := List.mem_map.mp ha
    exact isRunLine_runLine _
  unfold replayScriptLines
  rw [List.cons_append, List.cons_append, List.cons_append,
    List.cons_append, List.cons_append, List.cons_append,
    List.filter_cons_of_neg (by simp [h1]),
    List.filter_cons_of_neg (by simp [h2]),
    List.filter_cons_of_neg (by simp [h3]),
    List.filter_append, List.filter_append, h4, h5, h6]
  simp

/-- JS `text.split('\n')` (the line structure of a generated file). -/
def splitNl : Str → List Str
  | [] => [[]]
  | c :: rest =>
    if c = '\n' then [] :: splitNl rest
    else
      match splitNl rest with
      | [] => [[c]]
      | h :: r => (c :: h) :: r

theorem splitNl_no_nl (l : Str) (h : '\n' ∉ l) : splitNl l = [l] := by
  induction l with
  | nil => rfl
  | cons c t ih =>
    have hc : ¬(c = '\n') := fun hcc => h (hcc ▸ List.mem_cons_self c t)
    have ht : '\n' ∉ t := fun hm => h (List.mem_cons_of_mem c hm)
    simp [splitNl, hc, ih ht]

theorem splitNl_append (l t : Str) (h : '\n' ∉ l) :
    splitNl (l ++ '\n' :: t) = l :: splitNl t := by
  induction l with
  | nil => simp [splitNl]
  | cons c l ih =>
    have hc : ¬(c = '\n') := fun hcc => h (hcc ▸ List.mem_cons_self c l)
    have hl : '\n' ∉ l := fun hm => h (List.mem_cons_of_mem c hm)
    simp [splitNl, hc, ih hl]

theorem splitNl_joinLines (L : List Str) (hne : L ≠ [])
    (h : ∀ l ∈ L, '\n' ∉ l) : splitNl (joinLines L) = L := by
  induction L with
  | nil => exact absurd rfl hne
  | cons l r ih =>
    cases r with
    | nil => exact splitNl_no_nl l (h l (List.mem_cons_self l []))
    | cons l2 r2 =>
      have hstep : joinLines (l :: l2 :: r2) = l ++ '\n' :: joinLines (l2 :: r2) := rfl
      rw [hstep, splitNl_append l _ (h l (List.mem_cons_self l _)),
        ih (by simp) (fun x hx => h x (List.mem_cons_of_mem l hx))]

theorem filter_metaEntryLines (e : LogEntry) :
    (metaEntryLines e).filter isCmdLine = [cmdKeyPre ++ jsonQuote e.cmd] := by
  have hts : isCmdLine ("      \"ts\": ".toList ++ (tsJson e.ts ++ [','])) = false := by
    unfold isCmdLine
    exact startsWith_append_false _ _ _ (by decide)
  have hcmd : isCmdLine ("      \"cmd\": ".toList ++ jsonQuote e.cmd) = true := by
    unfold isCmdLine cmdKeyPre
    exact startsWith_append_self _ _
  unfold metaEntryLines
  rw [List.filter_cons_of_neg (by decide), List.filter_cons_of_neg (by rw [hts]; decide),
    List.filter_cons_of_pos (by rw [hcmd]), List.filter_nil]
  rfl

theorem filter_entryBlocks (es : List LogEntry) :
    (entryBlocks es).filter isCmdLine =
      es.map (fun e => cmdKeyPre ++ jsonQuote e.cmd) := by
  induction es with
  | nil => rfl
  | cons e rest ih =>
    cases rest with
    | nil =>
      show (metaEntryLines e ++ ["    \x7d".toList]).filter isCmdLine = _
      have h : List.filter isCmdLine ["    \x7d".toList] = [] := by decide
      rw [List.filter_append, filter_metaEntryLines, h]
      simp
    | cons e2 rest2 =>
      show (metaEntryLines e ++ ["    \x7d,".toList] ++ entryBlocks (e2 :: rest2)).filter
          isCmdLine = _
      have h : List.filter isCmdLine ["    \x7d,".toList] = [] := by decide
      rw [List.filter_append, List.filter_append, filter_metaEntryLines, h, ih]
      simp

theorem filter_meta_lines (now root : Str) (entries : List LogEntry) :
    (metaLines now root entries).filter isCmdLine =
      entries.map (fun e => cmdKeyPre ++ jsonQuote e.cmd) := by
  have h2 : isCmdLine (metaCapturedAtLine now) = false := by
    unfold isCmdLine metaCapturedAtLine
    exact startsWith_append_false _ _ _ (by decide)
  have h3 : isCmdLine (metaWorkspaceLine root) = false := by
    unfold isCmdLine metaWorkspaceLine
    exact startsWith_append_false _ _ _ (by decide)
  have h4 : (entriesArrayLines entries).filter isCmdLine =
      entries.map (fun e => cmdKeyPre ++ jsonQuote e.cmd) := by
    cases entries with
    | nil => decide
    | cons e r =>
      show ("  \"entries\": [".toList :: (entryBlocks (e :: r) ++ ["  ]".toList])).filter
          isCmdLine = _
      have h : List.filter isCmdLine ["  ]".toList] = [] := by decide
      rw [List.filter_cons_of_neg (by decide), List.filter_append, filter_entryBlocks, h]
      simp
  have h5 : List.filter isCmdLine ["\x7d".toList] = [] := by decide
  unfold metaLines
  rw [List.cons_append, List.cons_append, List.cons_append,
    List.filter_cons_of_neg (by decide), List.filter_cons_of_neg (by simp [h2]),
    List.filter_cons_of_neg (by simp [h3]), List.filter_append, h4, h5]
  simp

theorem replayRun_all_pass (exec : Nat → StepExec) (cmds : List Str) :
    ∀ i, (∀ j, j < cmds.length → runStep (exec (i + j)) = none) →
      replayRun exec i cmds = ⟨cmds, none⟩ := by
  induction cmds with
  | nil => intro i _; rfl
  | cons c rest ih =>
    intro i h
    have h0 : runStep (exec i) = none := by simpa using h 0 (by simp)
    have hrest : ∀ j, j < rest.length → runStep (exec (i + 1 + j)) = none := by
      intro j hj
      have := h (j + 1) (by simpa using Nat.succ_lt_succ hj)
      simpa [Nat.add_assoc, Nat.add_comm 1 j] using this
    simp [replayRun, h0, ih (i + 1) hrest]

theorem replayRun_first_fail (exec : Nat → StepExec) (cmds : List Str) :
    ∀ i k code, k < cmds.length →
      (∀ j, j < k → runStep (exec (i + j)) = none) →
      runStep (exec (i + k)) = some code →
      replayRun exec i cmds = ⟨cmds.take (k + 1), some code⟩ := by
  induction cmds with
  | nil => intro i k code hk _ _; exact absurd hk (Nat.not_lt_zero k)
  | cons c rest ih =>
    intro i k code hk hpass hfail
    cases k with
    | zero =>
      have h0 : runStep (exec i) = some code := by simpa using hfail
      simp [replayRun, h0]
    | succ k =>
      have h0 : runStep (exec i) = none := by simpa using hpass 0 (Nat.succ_pos k)
      have hpass2 : ∀ j, j < k → runStep (exec (i + 1 + j)) = none := by
        intro j hj
        have := hpass (j + 1) (Nat.succ_lt_succ hj)
        simpa [Nat.add_assoc, Nat.add_comm 1 j] using this
      have hfail2 : runStep (exec (i + 1 + k)) = some code := by
        have : i + (k + 1) = i + 1 + k := by omega
        rw [← this]
        exact hfail
      have := ih (i + 1) k code (Nat.lt_of_succ_lt_succ hk) hpass2 hfail2
      simp [replayRun, h0, this]

theorem digitChar_ne_newline : ∀ d, d < 10 → digitChar d ≠ '\n' := by
  decide

theorem newline_not_mem_natStr (n : Nat) : '\n' ∉ natStr n := by
  induction n using Nat.strong_induction_on with
  | _ n ih =>
    rw [natStr]
    split_ifs with h
    · intro hm
      simp only [List.mem_singleton] at hm
      exact digitChar_ne_newline n h hm.symm
    · intro hm
      rcases List.mem_append.mp hm with hm | hm
      · exact ih (n / 10) (Nat.div_lt_self (by omega) (by omega)) hm
      · simp only [List.mem_singleton] at hm
        exact digitChar_ne_newline (n % 10) (by omega) hm.symm

/-- Modelled from the claim wording of the parser contract: the same
pipeline but trimming only trailing whitespace, for comparison with the
source pipeline (which uses `trim()`, trimming both ends). -/
def trimTrailingOnly (s : Str) : Str :=
  (s.reverse.dropWhile isJsWhitespace).reverse

/-- Modelled from the claim wording: `parseLog` as described, with a
trailing-only trim. -/
def claimedParseLog (raw : Str) : List LogEntry :=
  (((splitLines (trimTrailingOnly raw)).filter (fun l => !l.isEmpty)).map parseLine)

/-- C3 counterexample: on the log text `" x"` the source pipeline trims the
leading space (entry `\x7b ts: null, cmd: "x" \x7d`), while the pipeline the
claim describes (trailing-only trim) would split `" x"` at index 0 and
produce `\x7b ts: "", cmd: "x" \x7d`. -/
theorem c3_counterexample :
    parseLog " x".toList ≠ claimedParseLog " x".toList ∧
    parseLog " x".toList = [⟨none, "x".toList⟩] ∧
    claimedParseLog " x".toList = [⟨some [], "x".toList⟩] := by
  decide

/-- C3 (amended: the pipeline trims leading and trailing whitespace): each
remaining non-empty line of the trimmed text yields exactly one entry; a
line is split at its first space into timestamp prefix and verbatim
command remainder; a line with no space yields a null timestamp and the
whole line as command. -/
theorem c3_parse_total_split (raw line : Str) (i : Nat) :
    parseLog raw =
      ((splitLines (jsTrim raw)).filter (fun l => !l.isEmpty)).map parseLine ∧
    (parseLog raw).length =
      ((splitLines (jsTrim raw)).filter (fun l => !l.isEmpty)).length ∧
    (' ' ∉ line → parseLine line = ⟨none, line⟩) ∧
    (indexOfSpace line = some i →
      parseLine line = ⟨some (line.take i), line.drop (i + 1)⟩ ∧
      line.take i ++ ' ' :: line.drop (i + 1) = line ∧
      ' ' ∉ line.take i) := by
  refine ⟨rfl, by simp [parseLog], parseLine_no_space line, fun h => ⟨?_, ?_, ?_⟩⟩
  · simp [parseLine, h]
  · exact (indexOfSpace_some_decomp line i h).1
  · exact (indexOfSpace_some_decomp line i h).2

/-- C3 witness: the theorem applied to the log `"2024 echo  hi\nnospace"`
and its two lines. -/
theorem c3_witness :
    parseLine "nospace".toList = ⟨none, "nospace".toList⟩ ∧
    parseLine "2024 echo  hi".toList =
      ⟨some "2024".toList, "echo  hi".toList⟩ := by
  refine ⟨(c3_parse_total_split "nospace".toList "nospace".toList 0).2.2.1 (by decide), ?_⟩
  have h := (c3_parse_total_split "2024 echo  hi".toList "2024 echo  hi".toList 4).2.2.2
    (by decide)
  exact h.1

/-- Modelled from the claim wording of the filter contract: discard exactly
the entries whose command text begins with `shell2node`, for comparison
with the source filter (which also discards entries with empty command
text via JS truthiness). -/
def claimedFiltered (raw : Str) : List LogEntry :=
  (parseLog raw).filter (fun e => !startsWith e.cmd s2n)

/-- C4 counterexample: in the log `"t \nu v"` the first line parses to an
entry with empty command text; the source filter discards it although its
command does not begin with `shell2node`, so the discarded set is not
exactly the `shell2node`-prefixed entries. -/
theorem c4_counterexample :
    filteredEntries "t \nu v".toList ≠ claimedFiltered "t \nu v".toList ∧
    filteredEntries "t \nu v".toList = [⟨some "u".toList, "v".toList⟩] ∧
    claimedFiltered "t \nu v".toList =
      [⟨some "t".toList, []⟩, ⟨some "u".toList, "v".toList⟩] := by
  decide

/-- C4 (amended): the filter discards exactly the entries whose command
text is empty or begins with `shell2node` (a prefix match, so unrelated
commands sharing that prefix are discarded too), and the retained entries
form a sublist of the parsed entries, keeping their original relative
order. -/
theorem c4_filter_characterization (raw : Str) (ts : Option Str) (cmd : Str) :
    filteredEntries raw = (parseLog raw).filter keepEntry ∧
    keepEntry ⟨ts, cmd⟩ = (!cmd.isEmpty && !startsWith cmd s2n) ∧
    (startsWith cmd s2n = true → keepEntry ⟨ts, cmd⟩ = false) ∧
    (cmd = [] → keepEntry ⟨ts, cmd⟩ = false) ∧
    (filteredEntries raw).Sublist (parseLog raw) := by
  refine ⟨rfl, rfl, fun h => by simp [keepEntry, h], fun h => by simp [keepEntry, h],
    List.filter_sublist _⟩

/-- C4 witness: the theorem applied to a command that merely shares the
`shell2node` prefix — it is discarded as well. -/
theorem c4_witness :
    keepEntry ⟨none, "shell2nodeXYZ --flag".toList⟩ = false := by
  exact (c4_filter_characterization [] none "shell2nodeXYZ --flag".toList).2.2.1
    (by decide)

/-- C10: a line whose first space is its final character parses to an entry
with the line prefix as timestamp and empty command text; the filter
truthiness guard discards it, and no retained entry ever has empty
command text, so it reaches neither the metadata document nor the replay
script. -/
theorem c10_trailing_space_entry (ts raw : Str) (h : ' ' ∉ ts) :
    parseLine (ts ++ [' ']) = ⟨some ts, []⟩ ∧
    keepEntry ⟨some ts, []⟩ = false ∧
    ∀ e, e ∈ filteredEntries raw → e.cmd ≠ [] := by
  refine ⟨parseLine_append_space ts [] h, rfl, fun e he hcmd => ?_⟩
  have hk := List.of_mem_filter he
  rw [keepEntry, hcmd] at hk
  simp at hk

/-- C10 witness: the theorem applied to the line `"t "` and the log
`"t \nu v"`. -/
theorem c10_witness :
    parseLine ("t".toList ++ [' ']) = ⟨some "t".toList, []⟩ ∧
    keepEntry ⟨some "t".toList, []⟩ = false ∧
    ∀ e, e ∈ filteredEntries "t \nu v".toList → e.cmd ≠ [] :=
  c10_trailing_space_entry "t".toList "t \nu v".toList (by decide)

/-- C1: with the log readable, the replay artifact (script plus metadata)
is generated iff the save marker exists and at least one entry survives
filtering; with the marker absent or every entry filtered out, no output
file is written and the process exits 0. -/
theorem c1_artifact_iff (saved : Bool) (raw nowM nowS root : Str) :
    (writesArtifact (finalize saved (.ok raw) nowM nowS root) = true ↔
      saved = true ∧ filteredEntries raw ≠ []) ∧
    ((saved = false ∨ filteredEntries raw = []) →
      artifactFileCount (finalize saved (.ok raw) nowM nowS root) = 0 ∧
      finalizeTermination (finalize saved (.ok raw) nowM nowS root) = .exit 0) := by
  by_cases hs : saved <;> by_cases he : filteredEntries raw = [] <;>
    simp [finalize, hs, he, writesArtifact, artifactFileCount, finalizeTermination,
      List.isEmpty_iff]

/-- C1 witness: a saved session with one retained entry generates the
artifact; an unsaved one and a control-only one write nothing and
exit 0. -/
theorem c1_witness :
    writesArtifact
      (finalize true (.ok "t echo hi".toList) "n".toList "n".toList "w".toList) = true ∧
    artifactFileCount
      (finalize false (.ok "t echo hi".toList) "n".toList "n".toList "w".toList) = 0 ∧
    artifactFileCount
      (finalize true (.ok "t shell2node save".toList) "n".toList "n".toList
        "w".toList) = 0 := by
  refine ⟨(c1_artifact_iff true "t echo hi".toList "n".toList "n".toList "w".toList).1.mpr
    ⟨rfl, by decide⟩, ?_, ?_⟩
  · exact ((c1_artifact_iff false "t echo hi".toList "n".toList "n".toList
      "w".toList).2 (Or.inl rfl)).1
  · exact ((c1_artifact_iff true "t shell2node save".toList "n".toList "n".toList
      "w".toList).2 (Or.inr (by decide))).1

/-- C7 counterexample: with the marker present and the log unreadable, the
handler does not take the saved-with-no-entries path (the claimed
"treated as no commands recorded" degradation); it ends in the uncaught
`readFileSync` exception and does not exit 0. -/
theorem c7_counterexample :
    finalize true (.error ()) [] [] [] = .logReadThrow ∧
    FinalizeResult.logReadThrow ≠ .savedNoEntries ∧
    finalizeTermination (finalize true (.error ()) [] [] []) ≠ .exit 0 := by
  decide

/-- C7 (amended): an unreadable log at finalize time on the saved path is
fatal — `fs.readFileSync` has no surrounding try/catch, so the exception
propagates out of the exit handler and the process terminates abnormally;
no output file is written. -/
theorem c7_log_read_fatal (e : Unit) (nowM nowS root : Str) :
    finalize true (.error e) nowM nowS root = .logReadThrow ∧
    finalizeTermination (finalize true (.error e) nowM nowS root) = .uncaught ∧
    artifactFileCount (finalize true (.error e) nowM nowS root) = 0 := by
  exact ⟨rfl, rfl, rfl⟩

/-- C9 counterexample: the log file is written with no mode option
(`fs.writeFileSync(logFile, '', 'utf8')`), so under the common umask 022
its creation mode is 0644, not the owner-only 0600 the rc files get. -/
theorem c9_counterexample :
    logFileWriteMode = none ∧
    logFileWriteMode ≠ some 0o600 ∧
    effectiveMode logFileWriteMode 0o022 = 0o644 ∧
    (0o644 : Nat) ≠ 0o600 ∧
    bashRcWriteMode = some 0o600 := by
  decide

/-- C9 (amended): only the two generated rc files are written with mode
0600; the log file write passes no mode, so it is created with the Node
default 0666 masked by the umask (0644 under umask 022). -/
theorem c9_write_modes :
    logFileWriteMode = none ∧
    bashRcWriteMode = some 0o600 ∧
    zshRcWriteMode = some 0o600 ∧
    effectiveMode bashRcWriteMode 0o022 = 0o600 ∧
    effectiveMode zshRcWriteMode 0o022 = 0o600 ∧
    effectiveMode logFileWriteMode 0o022 = 0o644 := by
  decide

/-- C2: the generated script contains exactly one `run` invocation per
retained entry, in the entries' original order, each embedding that
entry's command as a JSON string literal that decodes back to the exact
command text; the `run` helper (fixed in `scriptFixedMid`) executes the
command via `sh -c` with inherited stdio, and the replay executes the
commands strictly in order, terminating at the first step whose `run`
exits — on spawn failure or non-zero exit status — and never executing a
later step. -/
theorem c2_replay_script (now : Str) (entries : List LogEntry)
    (exec : Nat → StepExec) (cmds : List Str) (i k : Nat) (code : Int) :
    ((replayScriptLines now entries).filter isRunLine =
      entries.map (fun e => runLine e.cmd)) ∧
    ((replayScriptLines now entries).filter isRunLine).length = entries.length ∧
    (∀ cmd, runLine cmd = "  run(".toList ++ jsonQuote cmd ++ ");".toList) ∧
    (∀ cmd, jsonUnquote (jsonQuote cmd) = some cmd) ∧
    ((∀ j, j < cmds.length → runStep (exec (i + j)) = none) →
      replayRun exec i cmds = ⟨cmds, none⟩) ∧
    (k < cmds.length →
      (∀ j, j < k → runStep (exec (i + j)) = none) →
      runStep (exec (i + k)) = some code →
      replayRun exec i cmds = ⟨cmds.take (k + 1), some code⟩) := by
  refine ⟨filter_script_lines now entries, ?_, fun _ => rfl, jsonQuote_roundtrip,
    replayRun_all_pass exec cmds i, replayRun_first_fail exec cmds i k code⟩
  rw [filter_script_lines now entries, List.length_map]

/-- C2 witness: a two-entry script has exactly its two `run` lines, and a
replay whose first step exits 1 executes only the first command. -/
theorem c2_witness :
    ((replayScriptLines "T".toList
        [⟨none, "false".toList⟩, ⟨none, "echo after".toList⟩]).filter isRunLine =
      [runLine "false".toList, runLine "echo after".toList]) ∧
    replayRun (fun n => if n = 0 then .ok (some 1) else .ok (some 0)) 0
      ["false".toList, "echo after".toList] =
      ⟨["false".toList], some 1⟩ := by
  refine ⟨(c2_replay_script "T".toList
      [⟨none, "false".toList⟩, ⟨none, "echo after".toList⟩]
      (fun n => if n = 0 then .ok (some 1) else .ok (some 0))
      ["false".toList, "echo after".toList] 0 0 1).1, ?_⟩
  have h := (c2_replay_script "T".toList
      [⟨none, "false".toList⟩, ⟨none, "echo after".toList⟩]
      (fun n => if n = 0 then .ok (some 1) else .ok (some 0))
      ["false".toList, "echo after".toList] 0 0 1).2.2.2.2.2
    (by decide) (fun j hj => absurd hj (Nat.not_lt_zero j)) (by decide)
  simpa using h

/-- C5: `JSON.stringify` string encoding round-trips every command text
byte-for-byte (decoding the embedded literal yields exactly the original,
and the encoding is injective); the encoded literal contains no newline,
so with a newline-free generation timestamp the script text splits back
into exactly the intended line list — no command text can change the
script structure; and the metadata document carries one `"cmd"` property
per retained entry, in order, each embedding that entry's command via the
same encoding. -/
theorem c5_json_embedding (cmd a b now root : Str) (entries : List LogEntry) :
    jsonUnquote (jsonQuote cmd) = some cmd ∧
    (jsonQuote a = jsonQuote b → a = b) ∧
    '\n' ∉ jsonQuote cmd ∧
    ((metaLines now root entries).filter isCmdLine =
      entries.map (fun e => cmdKeyPre ++ jsonQuote e.cmd)) ∧
    (∀ e, e ∈ entries → jsonUnquote (jsonQuote e.cmd) = some e.cmd) ∧
    ('\n' ∉ now →
      splitNl (replayScriptText now entries) = replayScriptLines now entries) := by
  refine ⟨jsonQuote_roundtrip cmd, jsonQuote_injective a b, newline_not_mem_jsonQuote cmd,
    filter_meta_lines now root entries, fun e _ => jsonQuote_roundtrip e.cmd, fun hn => ?_⟩
  refine splitNl_joinLines _ (by simp [replayScriptLines]) ?_
  intro l hl
  unfold replayScriptLines at hl
  rw [List.cons_append, List.cons_append, List.cons_append] at hl
  rcases List.mem_cons.mp hl with rfl | hl
  · decide
  rcases List.mem_cons.mp hl with rfl | hl
  · unfold scriptCountLine
    intro hm
    rcases List.mem_append.mp hm with hm | hm
    · revert hm; decide
    · exact newline_not_mem_natStr entries.length hm
  rcases List.mem_cons.mp hl with rfl | hl
  · unfold scriptGenAtLine
    intro hm
    rcases List.mem_append.mp hm with hm | hm
    · revert hm; decide
    · exact hn hm
  rcases List.mem_append.mp hl with hl | hl
  · rcases List.mem_append.mp hl with hl | hl
    · exact (by decide : ∀ x ∈ scriptFixedMid, '\n' ∉ x) l hl
    · obtain ⟨e, _, rfl⟩ := List.mem_map.mp hl
      unfold runLine
      intro hm
      rcases List.mem_append.mp hm with hm | hm
      · rcases List.mem_append.mp hm with hm | hm
        · revert hm; decide
        · exact newline_not_mem_jsonQuote e.cmd hm
      · revert hm; decide
  · exact (by decide : ∀ x ∈ [scriptLastLine], '\n' ∉ x) l hl

/-- C5 witness: a command containing quotes, backticks and a newline
round-trips exactly, and the script built from it splits back into its
line list. -/
theorem c5_witness :
    jsonUnquote (jsonQuote "echo \"hi\" `pwd`\nnext".toList) =
      some "echo \"hi\" `pwd`\nnext".toList ∧
    splitNl (replayScriptText "T".toList [⟨none, "echo \"hi\" `pwd`\nnext".toList⟩]) =
      replayScriptLines "T".toList [⟨none, "echo \"hi\" `pwd`\nnext".toList⟩] := by
  refine ⟨(c5_json_embedding "echo \"hi\" `pwd`\nnext".toList [] [] "T".toList []
      [⟨none, "echo \"hi\" `pwd`\nnext".toList⟩]).1, ?_⟩
  exact (c5_json_embedding "echo \"hi\" `pwd`\nnext".toList [] [] "T".toList []
      [⟨none, "echo \"hi\" `pwd`\nnext".toList⟩]).2.2.2.2.2 (by decide)

/-- C6 counterexample: a run with a valid invocation and a successful spawn
whose saved-path log read fails terminates abnormally (non-zero), so the
process does not exit non-zero only on spawn failure or invalid
invocation. -/
theorem c6_counterexample :
    program ["capture".toList] false true (.error ()) [] [] [] = .uncaught ∧
    program ["capture".toList] false true (.error ()) [] [] [] ≠ .exit 0 ∧
    argvAccepted ["capture".toList] = true := by
  decide

/-- C6 (amended): every normal completion (not-saved, saved-with-no-entries,
saved-with-artifact) exits 0; an explicit non-zero exit happens only on
invalid invocation (usage code) or spawn failure (distinct code 2); in
addition, a failing saved-path log read ends the process abnormally with
an uncaught exception. -/
theorem c6_exit_codes (argv : List Str) (sf saved : Bool)
    (lr : Except Unit Str) (nowM nowS root : Str) :
    (argvAccepted argv = true → sf = false → ∀ raw, lr = .ok raw →
      program argv sf saved lr nowM nowS root = .exit 0) ∧
    (argvAccepted argv = false →
      program argv sf saved lr nowM nowS root = .exit usageExitCode) ∧
    (argvAccepted argv = true → sf = true →
      program argv sf saved lr nowM nowS root = .exit 2) ∧
    usageExitCode ≠ 0 ∧
    (∀ c, program argv sf saved lr nowM nowS root = .exit c → c ≠ 0 →
      argvAccepted argv = false ∨ sf = true) ∧
    (program argv sf saved lr nowM nowS root = .uncaught ↔
      argvAccepted argv = true ∧ sf = false ∧ saved = true ∧ ∃ e, lr = .error e) := by
  rcases lr with e | raw
  · by_cases ha : argvAccepted argv <;> by_cases hsf : sf <;> by_cases hsv : saved <;>
      simp [program, finalize, finalizeTermination, usageExitCode, ha, hsf, hsv]
  · by_cases ha : argvAccepted argv <;> by_cases hsf : sf <;> by_cases hsv : saved <;>
      by_cases he : (filteredEntries raw).isEmpty <;>
      simp [program, finalize, finalizeTermination, usageExitCode, ha, hsf, hsv, he]

/-- C6 witness: concrete runs of every termination class — artifact run
exits 0, empty invocation exits the usage code, spawn failure exits 2. -/
theorem c6_witness :
    program ["capture".toList] false true (.ok "t echo hi".toList) [] [] [] = .exit 0 ∧
    program [] false true (.ok "t echo hi".toList) [] [] [] = .exit usageExitCode ∧
    program ["capture".toList] true true (.ok "t echo hi".toList) [] [] [] = .exit 2 := by
  refine ⟨(c6_exit_codes ["capture".toList] false true (.ok "t echo hi".toList)
      [] [] []).1 (by decide) rfl "t echo hi".toList rfl, ?_, ?_⟩
  · exact (c6_exit_codes [] false true (.ok "t echo hi".toList) [] [] []).2.1 (by decide)
  · exact (c6_exit_codes ["capture".toList] true true (.ok "t echo hi".toList)
      [] [] []).2.2.1 (by decide) rfl

/-- C8 counterexample: for the unrecognized shell `/bin/fish` the source
warns but spawns plain `-i` with no rc file attached, so the fallback is
not the PosixTraced (rc-file) strategy the claim states. -/
theorem c8_counterexample :
    (chooseSpawn "/bin/fish".toList "/tmp/w/capture_rc.sh".toList).warned = true ∧
    (chooseSpawn "/bin/fish".toList "/tmp/w/capture_rc.sh".toList).args =
      ["-i".toList] ∧
    (chooseSpawn "/bin/fish".toList "/tmp/w/capture_rc.sh".toList).args ≠
      ["--rcfile".toList, "/tmp/w/capture_rc.sh".toList, "-i".toList] ∧
    containsSub (toLowerStr (basename "/bin/fish".toList)) "zsh".toList = false ∧
    containsSub (toLowerStr (basename "/bin/fish".toList)) "bash".toList = false := by
  decide

/-- C8 (amended): detection is a case-insensitive substring match on the
shell path base name — zsh gets the `ZDOTDIR` strategy, bash the
`--rcfile` strategy; an unrecognized base name gets a warning, and the rc
file is attached only when the full path contains `bash` (case-sensitive);
otherwise the shell is spawned `-i` with no rc file. -/
theorem c8_shell_detection (shell rc : Str) :
    (containsSub (toLowerStr (basename shell)) "zsh".toList = true →
      chooseSpawn shell rc = ⟨shell, ["-i".toList], true, false⟩) ∧
    (containsSub (toLowerStr (basename shell)) "zsh".toList = false →
      containsSub (toLowerStr (basename shell)) "bash".toList = true →
      chooseSpawn shell rc =
        ⟨shell, ["--rcfile".toList, rc, "-i".toList], false, false⟩) ∧
    (containsSub (toLowerStr (basename shell)) "zsh".toList = false →
      containsSub (toLowerStr (basename shell)) "bash".toList = false →
      (chooseSpawn shell rc).warned = true ∧
      (containsSub shell "bash".toList = true →
        (chooseSpawn shell rc).args = ["--rcfile".toList, rc, "-i".toList]) ∧
      (containsSub shell "bash".toList = false →
        chooseSpawn shell rc = ⟨shell, ["-i".toList], false, true⟩)) := by
  refine ⟨fun h1 => by simp only [chooseSpawn]; rw [h1]; simp,
    fun h1 h2 => by simp only [chooseSpawn]; rw [h1, h2]; simp,
    fun h1 h2 => ⟨?_, fun h3 => by simp only [chooseSpawn]; rw [h1, h2, h3]; simp,
      fun h3 => by simp only [chooseSpawn]; rw [h1, h2, h3]; simp⟩⟩
  rcases Bool.eq_false_or_eq_true (containsSub shell "bash".toList) with h3 | h3 <;>
    · simp only [chooseSpawn]
      rw [h1, h2, h3]
      simp

/-- C8 witness: the theorem applied to `/usr/bin/zsh`, `/bin/bash` and
`/bin/fish`. -/
theorem c8_witness :
    chooseSpawn "/usr/bin/zsh".toList "/w/rc".toList =
      ⟨"/usr/bin/zsh".toList, ["-i".toList], true, false⟩ ∧
    chooseSpawn "/bin/bash".toList "/w/rc".toList =
      ⟨"/bin/bash".toList, ["--rcfile".toList, "/w/rc".toList, "-i".toList],
        false, false⟩ ∧
    chooseSpawn "/bin/fish".toList "/w/rc".toList =
      ⟨"/bin/fish".toList, ["-i".toList], false, true⟩ := by
  refine ⟨(c8_shell_detection "/usr/bin/zsh".toList "/w/rc".toList).1 (by decide),
    (c8_shell_detection "/bin/bash".toList "/w/rc".toList).2.1 (by decide) (by decide),
    ((c8_shell_detection "/bin/fish".toList "/w/rc".toList).2.2 (by decide)
      (by decide)).2.2 (by decide)⟩

end ShellToNode
